import Mathlib

/-!
Verification of the wzs-web infrastructure library against its specification.

The development shallowly embeds the relevant Rust source files:

* `src/web/csrf.rs` — CSRF token minting, verification, the double-submit
  ingress validator and the issue/refresh handler;
* `src/config/csrf.rs` — the CSRF configuration value object;
* `src/auth/jwt.rs` — JWT creation/decoding wrappers;
* `src/graphql/context.rs` and `src/graphql/guard.rs` — cookie-bound JWT
  principal extraction;
* `src/db/port.rs` and `src/db/mysql_adapter.rs` — the database parameter and
  value sum types, row accessors, and the MySQL parameter binding;
* `src/web/upload/local_storage.rs` and `src/web/upload/uploader.rs` — the
  storage path sanitisation and the upload content-key computation.

Strings are modelled as `List Char` (one entry per Unicode scalar value, as in
Rust `str`), byte buffers as `List Nat` with elements below 256.  External
crates (HMAC-SHA256 from `hmac`, the `jsonwebtoken` codec, `serde_json`) are
uninterpreted function parameters; everything the repository itself computes
(base-64 URL-safe no-padding encoding, token formatting and splitting, path
sanitisation, parameter conversion, row access) is defined concretely below,
translated from the source.
-/

namespace WzsWeb

/-! ### Character-list helpers (Rust `str` operations used by the sources) -/

/-- Rust `char::to_ascii_lowercase` applied to every character
    (`str::to_ascii_lowercase`). -/
def toLowerAscii (s : List Char) : List Char :=
  s.map fun c => if 'A' ≤ c ∧ c ≤ 'Z' then Char.ofNat (c.toNat + 32) else c

/-- Rust `str::split(sep)` for a single-character pattern: the list of
    (possibly empty) fields between occurrences of `sep`.  `split` on an empty
    string yields one empty field, exactly as in Rust. -/
def splitOnChar (sep : Char) : List Char → List (List Char)
  | [] => [[]]
  | c :: rest =>
    if c = sep then [] :: splitOnChar sep rest
    else
      match splitOnChar sep rest with
      | [] => [[c]]
      | h :: t => (c :: h) :: t

/-- Rust `str::trim_start_matches('/')`: every leading `'/'` is removed. -/
def trimStartSlashes (s : List Char) : List Char :=
  s.dropWhile fun c => c = '/'

/-- ASCII/Unicode whitespace test used to model Rust `str::trim` on the
    filenames that reach the upload service. -/
def isWs (c : Char) : Bool :=
  c = ' ' ∨ c = '\t' ∨ c = '\n' ∨ c = '\r'

/-- Rust `str::trim`: whitespace removed from both ends. -/
def trimChars (s : List Char) : List Char :=
  ((s.dropWhile isWs).reverse.dropWhile isWs).reverse

/-- UTF-8 encoding of one Unicode scalar value (`char` in Rust). -/
def utf8EncodeChar (c : Char) : List Nat :=
  let n := c.toNat
  if n < 128 then [n]
  else if n < 2048 then [192 + n / 64, 128 + n % 64]
  else if n < 65536 then [224 + n / 4096, 128 + (n / 64) % 64, 128 + n % 64]
  else [240 + n / 262144, 128 + (n / 4096) % 64, 128 + (n / 64) % 64, 128 + n % 64]

/-- Rust `str::as_bytes` / `String::into_bytes`: the UTF-8 bytes of a string. -/
def utf8Encode (s : List Char) : List Nat :=
  (s.map utf8EncodeChar).flatten

/-! ### URL-safe base-64 without padding (the `base64` crate's
`URL_SAFE_NO_PAD` engine, used by `src/web/csrf.rs`). -/

/-- The URL-safe alphabet: `A`–`Z`, `a`–`z`, `0`–`9`, `-`, `_`. -/
def b64EncChar (n : Nat) : Char :=
  if n < 26 then Char.ofNat ('A'.toNat + n)
  else if n < 52 then Char.ofNat ('a'.toNat + (n - 26))
  else if n < 62 then Char.ofNat ('0'.toNat + (n - 52))
  else if n = 62 then '-'
  else '_'

/-- Inverse of the URL-safe alphabet. -/
def b64DecChar (c : Char) : Option Nat :=
  if 'A' ≤ c ∧ c ≤ 'Z' then some (c.toNat - 'A'.toNat)
  else if 'a' ≤ c ∧ c ≤ 'z' then some (c.toNat - 'a'.toNat + 26)
  else if '0' ≤ c ∧ c ≤ '9' then some (c.toNat - '0'.toNat + 52)
  else if c = '-' then some 62
  else if c = '_' then some 63
  else none

/-- URL-safe no-padding base-64 encoding of a byte list
    (`URL_SAFE_NO_PAD.encode`). -/
def b64encode : List Nat → List Char
  | [] => []
  | [a] => [b64EncChar (a / 4), b64EncChar (a % 4 * 16)]
  | [a, b] => [b64EncChar (a / 4), b64EncChar (a % 4 * 16 + b / 16),
               b64EncChar (b % 16 * 4)]
  | a :: b :: c :: rest =>
    b64EncChar (a / 4) :: b64EncChar (a % 4 * 16 + b / 16) ::
    b64EncChar (b % 16 * 4 + c / 64) :: b64EncChar (c % 64) :: b64encode rest

/-- URL-safe no-padding base-64 decoding (`URL_SAFE_NO_PAD.decode`): rejects
    lengths `≡ 1 (mod 4)`, characters outside the alphabet, and non-zero
    trailing bits, as the `base64` crate's default engine does. -/
def b64decode : List Char → Option (List Nat)
  | [] => some []
  | [_] => none
  | [c1, c2] =>
    match b64DecChar c1, b64DecChar c2 with
    | some v1, some v2 =>
      if v2 % 16 = 0 then some [v1 * 4 + v2 / 16] else none
    | _, _ => none
  | [c1, c2, c3] =>
    match b64DecChar c1, b64DecChar c2, b64DecChar c3 with
    | some v1, some v2, some v3 =>
      if v3 % 4 = 0 then some [v1 * 4 + v2 / 16, v2 % 16 * 16 + v3 / 4] else none
    | _, _, _ => none
  | c1 :: c2 :: c3 :: c4 :: rest =>
    match b64DecChar c1, b64DecChar c2, b64DecChar c3, b64DecChar c4,
          b64decode rest with
    | some v1, some v2, some v3, some v4, some tail =>
      some ((v1 * 4 + v2 / 16) :: (v2 % 16 * 16 + v3 / 4) ::
            (v3 % 4 * 64 + v4) :: tail)
    | _, _, _, _, _ => none

/-! ### Path sanitisation (`src/web/upload/local_storage.rs`)

`save_file` computes `rel_path.trim_start_matches('/').replace("..", "_")` and
joins it under the configured root.  `replaceDotDot` is Rust
`str::replace("..", "_")` specialised to the two-character pattern: matches are
found non-overlapping, left to right. -/

mutual

/-- Rust `str::replace("..", "_")` (left-to-right, non-overlapping). -/
def replaceDotDot : List Char → List Char
  | [] => []
  | a :: rest => if a = '.' then afterDot rest else a :: replaceDotDot rest

/-- State of `replaceDotDot` after reading one `'.'`. -/
def afterDot : List Char → List Char
  | [] => ['.']
  | b :: rest =>
    if b = '.' then '_' :: replaceDotDot rest else '.' :: b :: replaceDotDot rest

end

/-- `noTwoDotsFrom a l` : the string `a :: l` has no two adjacent `'.'`. -/
def noTwoDotsFrom (a : Char) : List Char → Bool
  | [] => true
  | b :: rest => if a = '.' ∧ b = '.' then false else noTwoDotsFrom b rest

/-- The string has no occurrence of the substring `".."`. -/
def noTwoDots : List Char → Bool
  | [] => true
  | a :: rest => noTwoDotsFrom a rest

/-! ### CSRF configuration (`src/config/csrf.rs`) and the CSRF engine
(`src/web/csrf.rs`)

The `hmac` crate's HMAC-SHA256 is external to the repository; it enters the
model as an uninterpreted function `HmacFun` from key and message bytes to tag
bytes.  The source's `rand::random()` nonce draw enters as an explicit
argument. -/

/-- `CsrfConfig` from `src/config/csrf.rs` (the secret is `[u8; 32]`). -/
structure CsrfConfig where
  secret : List Nat
  cookie_secure : Bool
  cookie_http_only : Bool
deriving DecidableEq

/-- Uninterpreted HMAC-SHA256: key bytes and message bytes to tag bytes. -/
def HmacFun : Type := List Nat → List Nat → List Nat

/-- `CSRF_COOKIE_NAME` in `src/web/csrf.rs`. -/
def csrfCookieName : List Char := ['c', 's', 'r', 'f']

/-- `CSRF_HEADER_NAME` in `src/web/csrf.rs`. -/
def csrfHeaderName : List Char := "X-CSRF-Token".toList

/-- `SameSite` from the `cookie` crate (only the variants the source uses). -/
inductive SameSiteAttr
  | strict
  | lax
  | noneAttr
deriving DecidableEq

/-- A cookie as built by `Cookie::build` in `set_csrf_cookie_with_flags`. -/
structure Cookie where
  name : List Char
  value : List Char
  path : List Char
  sameSite : SameSiteAttr
  secure : Bool
  httpOnly : Bool
deriving DecidableEq

/-- `CookieJar` from `axum_extra`, modelled as a list of cookies;
    `get` returns the cookie with the given name. -/
def CookieJar : Type := List Cookie

/-- `CookieJar::get`. -/
def jarGet (jar : CookieJar) (name : List Char) : Option Cookie :=
  jar.find? fun c => c.name = name

/-- `CookieJar::add`: replaces any cookie of the same name. -/
def jarAdd (jar : CookieJar) (c : Cookie) : CookieJar :=
  c :: jar.filter fun c2 => ¬ c2.name = c.name

/-- An HTTP header map, modelled as an association list from header name to
    header value; `get` returns the first value for the name. -/
def Headers : Type := List (List Char × List Char)

/-- `HeaderMap::get` composed with `to_str().ok()` (values are modelled as
    strings directly). -/
def headerGet (hs : Headers) (name : List Char) : Option (List Char) :=
  (hs.find? fun kv => kv.1 = name).map fun kv => kv.2

/-- `generate_csrf_token` from `src/web/csrf.rs`: `v1.<nonce_b64>.<mac_b64>`
    where the MAC is HMAC-SHA256 of the nonce under `cfg.secret`.  The random
    32-byte nonce is passed explicitly. -/
def generate_csrf_token (hmac : HmacFun) (cfg : CsrfConfig)
    (nonce : List Nat) : List Char :=
  'v' :: '1' :: '.' ::
    (b64encode nonce ++ '.' :: b64encode (hmac cfg.secret nonce))

/-- `verify_token` from `src/web/csrf.rs`: exactly three dot-separated
    fields, prefix `v1`, both payloads base-64 decodable to 32 bytes, and the
    recomputed MAC constant-time-equal to the decoded one. -/
def verify_token (hmac : HmacFun) (cfg : CsrfConfig) (token : List Char) :
    Bool :=
  match splitOnChar '.' token with
  | [v, nonce_b64, mac_b64] =>
    if v = ['v', '1'] then
      match b64decode nonce_b64, b64decode mac_b64 with
      | some nonce, some mac =>
        if nonce.length = 32 ∧ mac.length = 32 then
          decide (hmac cfg.secret nonce = mac)
        else false
      | _, _ => false
    else false
  | _ => false

/-- `set_csrf_cookie_with_flags` from `src/web/csrf.rs`. -/
def set_csrf_cookie_with_flags (jar : CookieJar) (token : List Char)
    (secure http_only : Bool) : CookieJar :=
  jarAdd jar
    { name := csrfCookieName
      value := token
      path := ['/']
      sameSite := .lax
      secure := secure
      httpOnly := http_only }

/-- `set_csrf_cookie` from `src/web/csrf.rs`. -/
def set_csrf_cookie (jar : CookieJar) (cfg : CsrfConfig)
    (token : List Char) : CookieJar :=
  set_csrf_cookie_with_flags jar token cfg.cookie_secure cfg.cookie_http_only

/-- `validate_csrf` from `src/web/csrf.rs`: header present and non-empty,
    cookie present, header constant-time-equal to cookie, cookie verifies. -/
def validate_csrf (hmac : HmacFun) (headers : Headers) (jar : CookieJar)
    (cfg : CsrfConfig) : Bool :=
  match headerGet headers csrfHeaderName with
  | none => false
  | some header_token =>
    if header_token = [] then false
    else
      match jarGet jar csrfCookieName with
      | none => false
      | some c =>
        if header_token = c.value then verify_token hmac cfg c.value
        else false

/-- `CsrfResponse` from `src/web/csrf.rs` (serialised as `csrfToken`). -/
structure CsrfResponse where
  csrf_token : List Char
deriving DecidableEq

/-- Result of `csrf_handler`: the updated jar, the status, the two headers it
    inserts, and the JSON body. -/
structure CsrfHandlerOut where
  jar : CookieJar
  status : Nat
  cacheControl : List Char
  contentType : List Char
  body : CsrfResponse

/-- `csrf_handler` from `src/web/csrf.rs`: reuse the cookie token when it
    verifies, otherwise mint a fresh one (nonce passed explicitly); set the
    cookie and return the token as JSON. -/
def csrf_handler (hmac : HmacFun) (cfg : CsrfConfig) (jar : CookieJar)
    (freshNonce : List Nat) : CsrfHandlerOut :=
  let token :=
    match jarGet jar csrfCookieName with
    | some c =>
      if verify_token hmac cfg c.value then c.value
      else generate_csrf_token hmac cfg freshNonce
    | none => generate_csrf_token hmac cfg freshNonce
  { jar := set_csrf_cookie jar cfg token
    status := 200
    cacheControl := "no-store, no-cache, must-revalidate".toList
    contentType := "application/json".toList
    body := { csrf_token := token } }

/-! ### JWT wrappers (`src/auth/jwt.rs`)

The `jsonwebtoken` crate is external; its `encode` (with `Header::default()`,
i.e. HS256) and `decode` (with `Validation::default()`, which checks the
signature and that `exp` lies in the future) enter the model as uninterpreted
functions.  Their contract — decoding a token just encoded under the same
secret succeeds when `exp` is in the future — appears as a hypothesis of the
round-trip theorem and is discharged concretely in its witness.  `Utc::now()`
enters as an explicit `now` in seconds since the epoch. -/

/-- `Claims` from `src/auth/jwt.rs`: subject string and expiry seconds. -/
structure Claims where
  sub : List Char
  exp : Nat
deriving DecidableEq

/-- Uninterpreted `jsonwebtoken::encode` under `Header::default()`. -/
def JwtEncode : Type := Claims → List Nat → List Char

/-- Uninterpreted `jsonwebtoken::decode::<Claims>` under
    `Validation::default()`. -/
def JwtDecode : Type := List Char → List Nat → Option Claims

/-- `create_jwt` from `src/auth/jwt.rs`: claims are
    `{ sub: id.to_string(), exp: now + 48 hours }`. -/
def create_jwt (encode : JwtEncode) (now : Nat) (id : Nat)
    (secret : List Nat) : List Char :=
  encode { sub := (toString id).toList, exp := now + 48 * 3600 } secret

/-- `decode_jwt` from `src/auth/jwt.rs`. -/
def decode_jwt (decodeJwt : JwtDecode) (token : List Char)
    (secret : List Nat) : Option Claims :=
  decodeJwt token secret

/-! ### Cookie-bound principal extraction (`src/graphql/context.rs` and
`src/graphql/guard.rs`)

`serde_json` is external; a parsed JSON value is modelled by `JsonVal` and the
parser itself is an uninterpreted function. -/

/-- A `serde_json::Value`. -/
inductive JsonVal
  | nullJ
  | boolJ (b : Bool)
  | numJ (n : Int)
  | strJ (s : List Char)
  | arrJ (xs : List JsonVal)
  | objJ (fields : List (List Char × JsonVal))

/-- `serde_json::Value::get` with a string index: a field of an object. -/
def jsonGet (v : JsonVal) (key : List Char) : Option JsonVal :=
  match v with
  | .objJ fields => (fields.find? fun kv => kv.1 = key).map fun kv => kv.2
  | _ => none

/-- `serde_json::Value::as_str`. -/
def jsonAsStr (v : JsonVal) : Option (List Char) :=
  match v with
  | .strJ s => some s
  | _ => none

/-- Uninterpreted `serde_json::from_str::<Value>(..).ok()`. -/
def JsonParse : Type := List Char → Option JsonVal

/-- The JSON field name the auth cookie must carry. -/
def tokenKey : List Char := "token".toList

/-- `extract_jwt_subject` from `src/graphql/context.rs`: look up the cookie,
    parse its value as JSON, read the string field `token`, decode the JWT,
    and parse the subject; any failure yields `none`.  The unused `headers`
    argument is kept from the source signature. -/
def extract_jwt_subject {T : Type} (parseJson : JsonParse)
    (decodeJwt : JwtDecode) (jar : CookieJar) (_headers : Headers)
    (jwt_secret : Option (List Nat)) (cookie_name : List Char)
    (parse : List Char → Option T) : Option T :=
  match jwt_secret with
  | none => none
  | some secret =>
    ((((jarGet jar cookie_name).bind fun c => parseJson c.value).bind
        fun v => (jsonGet v tokenKey).bind jsonAsStr).bind
      fun token => decode_jwt decodeJwt token secret).bind
      fun claims => parse claims.sub

/-- `validate_jwt_guard` from `src/graphql/guard.rs`: the same chain (without
    the header argument). -/
def validate_jwt_guard {T : Type} (parseJson : JsonParse)
    (decodeJwt : JwtDecode) (jar : CookieJar)
    (jwt_secret : Option (List Nat)) (cookie_name : List Char)
    (parse : List Char → Option T) : Option T :=
  match jwt_secret with
  | none => none
  | some secret =>
    ((((jarGet jar cookie_name).bind fun c => parseJson c.value).bind
        fun v => (jsonGet v tokenKey).bind jsonAsStr).bind
      fun token => decode_jwt decodeJwt token secret).bind
      fun claims => parse claims.sub

/-! ### Database port (`src/db/port.rs`) and MySQL adapter
(`src/db/mysql_adapter.rs`)

Float payloads (`f32`/`f64`) are carried as uninterpreted bit patterns: the
adapter never inspects them.  `NaiveDateTime` is modelled by its calendar
fields with nanoseconds. -/

/-- `chrono::NaiveDateTime`, by fields. -/
structure NaiveDateTime where
  year : Int
  month : Nat
  day : Nat
  hour : Nat
  minute : Nat
  second : Nat
  nanosecond : Nat
deriving DecidableEq

/-- `Param` from `src/db/port.rs` (borrowed string/binary become lists). -/
inductive Param
  | i64 (x : Int)
  | u64 (x : Nat)
  | f32 (bits : Nat)
  | f64 (bits : Nat)
  | boolP (b : Bool)
  | strP (s : List Char)
  | dateTime (dt : NaiveDateTime)
  | binP (b : List Nat)
  | nullP
deriving DecidableEq

/-- `Value` from `src/db/port.rs` (owned). -/
inductive Value
  | i64 (x : Int)
  | u64 (x : Nat)
  | f32 (bits : Nat)
  | f64 (bits : Nat)
  | boolV (b : Bool)
  | strV (s : List Char)
  | dateTime (dt : NaiveDateTime)
  | binV (b : List Nat)
  | nullV
deriving DecidableEq

/-- `mysql::Value` (the driver's parameter/value type). -/
inductive MyValue
  | intV (x : Int)
  | uintV (x : Nat)
  | bytes (b : List Nat)
  | date (y m d hh mm ss : Nat) (micro : Nat)
  | timeV (neg : Bool) (days hh mm ss micro : Nat)
  | floatV (bits : Nat)
  | doubleV (bits : Nat)
  | nullV
deriving DecidableEq

/-- `MySqlDb::to_mysql_value` from `src/db/mysql_adapter.rs`.

    The source `match` has arms for `I64`, `U64`, `Bool`, `Str`, `DateTime`,
    `Bin` and `Null` only: there is **no arm** for `Param::F32` or
    `Param::F64`, although `src/db/port.rs` declares, converts into and tests
    those variants.  (As written the `match` is non-exhaustive — rustc error
    E0004 — so no conversion exists for float parameters.)  The missing arms
    are modelled by `none`; every arm that does exist is translated exactly:
    `as u16`/`as u8` casts truncate, and microseconds are
    `nanosecond / 1000`. -/
def to_mysql_value : Param → Option MyValue
  | .i64 x => some (.intV x)
  | .u64 x => some (.uintV x)
  | .boolP b => some (.intV (if b then 1 else 0))
  | .strP s => some (.bytes (utf8Encode s))
  | .dateTime dt =>
    some (.date (dt.year % 65536).toNat (dt.month % 256) (dt.day % 256)
      (dt.hour % 256) (dt.minute % 256) (dt.second % 256)
      (dt.nanosecond / 1000))
  | .binP b => some (.bytes b)
  | .nullP => some .nullV
  | .f32 _ => none
  | .f64 _ => none

/-- `MySqlDb::to_mysql_params`: positional conversion of the whole slice. -/
def to_mysql_params (params_in : List Param) : Option (List MyValue) :=
  params_in.mapM to_mysql_value

/-- Whether a parameter is one of the float variants the adapter's match
    does not cover. -/
def isFloatParam : Param → Bool
  | .f32 _ => true
  | .f64 _ => true
  | _ => false

/-- The §4.4 parameter-binding rules, written from the specification's words
    (for the refinement comparison): integers bind natively, booleans map to
    the integers 1/0, strings to their UTF-8 bytes, date-times split into
    (Y, M, D, h, m, s, microseconds) with microseconds = nanoseconds / 1000
    truncating, binary borrows are copied to owned buffers, and null maps to
    SQL NULL.  The specification states no rule for floats; they are sent to
    SQL NULL here and excluded by hypothesis wherever this function is used. -/
def specParamBinding : Param → MyValue
  | .i64 x => .intV x
  | .u64 x => .uintV x
  | .boolP b => .intV (if b then 1 else 0)
  | .strP s => .bytes (utf8Encode s)
  | .dateTime dt =>
    .date (dt.year % 65536).toNat (dt.month % 256) (dt.day % 256)
      (dt.hour % 256) (dt.minute % 256) (dt.second % 256)
      (dt.nanosecond / 1000)
  | .binP b => .bytes b
  | .nullP => .nullV
  | .f32 _ => .nullV
  | .f64 _ => .nullV

/-- `Row` from `src/db/port.rs`: column name to value.  The source uses a
    `HashMap`; an association list with first-match lookup models it. -/
def Row : Type := List (List Char × Value)

/-- `HashMap::get` on a row. -/
def rowGet (r : Row) (key : List Char) : Option Value :=
  (r.find? fun kv => kv.1 = key).map fun kv => kv.2

/-- The `anyhow::bail!` message of `Row::get_bool`. -/
def notBoolMsg (key : List Char) : List Char :=
  "column `".toList ++ key ++ "` is not Bool".toList

/-- `Row::get_bool` from `src/db/port.rs`: native booleans, nonzero
    integers, and the strings `"0"`/`"1"`; anything else fails. -/
def get_bool (r : Row) (key : List Char) : Except (List Char) Bool :=
  match rowGet r key with
  | some (.boolV v) => .ok v
  | some (.i64 v) => .ok (decide (v ≠ 0))
  | some (.u64 v) => .ok (decide (v ≠ 0))
  | some (.strV s) =>
    if s = ['0'] ∨ s = ['1'] then .ok (decide (s ≠ ['0']))
    else .error (notBoolMsg key)
  | _ => .error (notBoolMsg key)

/-- The coercions `get_bool` accepts, per the specification's words: native
    booleans, integer cells, and the string cells `"0"` and `"1"`. -/
def boolCoercible : Value → Bool
  | .boolV _ => true
  | .i64 _ => true
  | .u64 _ => true
  | .strV s => s = ['0'] ∨ s = ['1']
  | _ => false

/-! ### Local file storage (`src/web/upload/local_storage.rs`) -/

/-- The sanitised relative path computed by `LocalFileStorage::save_file`:
    `rel_path.trim_start_matches('/').replace("..", "_")`. -/
def sanitizeRelPath (rel_path : List Char) : List Char :=
  replaceDotDot (trimStartSlashes rel_path)

/-- The location `LocalFileStorage::save_file` writes to and returns:
    `self.root.join(&safe)` rendered as a string (the sanitised path never
    begins with `/`, so `join` appends it under the root). -/
def save_file (root : List Char) (rel_path : List Char) : List Char :=
  root ++ '/' :: sanitizeRelPath rel_path

/-- The storage rule as the specification words it: strip a **single**
    leading `/`, then replace every occurrence of `..` with `_`.  (Written
    from the spec for the refinement comparison with `sanitizeRelPath`.) -/
def specSanitizeSingleSlash (rel_path : List Char) : List Char :=
  replaceDotDot
    (match rel_path with
     | '/' :: rest => rest
     | l => l)

/-- The amended storage rule: strip **all** leading `/` characters, then
    replace every occurrence of `..` with `_` (written from the amended
    specification text for the refinement comparison). -/
def specSanitizeAllSlashes (rel_path : List Char) : List Char :=
  replaceDotDot (rel_path.dropWhile fun c => c = '/')

/-- The `/`-separated components of a path string. -/
def pathComponents (p : List Char) : List (List Char) :=
  splitOnChar '/' p

/-! ### Upload service (`src/web/upload/uploader.rs`) and the image
processor's support set (`src/image/image_rs_processor.rs`)

The storage port and the image-processor port are capabilities injected into
`UploadService`; they enter the model as function arguments.  `resize` and
`save` return `Option` to model `Result` (`?` propagation); `Uuid::new_v4`
and `Utc::now().format("%Y%m")` enter as explicit `uuid` / `yyyymm`
arguments. -/

/-- `MediaDirs` from `src/web/upload/uploader.rs`. -/
structure MediaDirs where
  image_dir : List Char
  file_dir : List Char

/-- `ResizeOpts` from `src/image/processor.rs`. -/
structure ResizeOpts where
  max_w : Nat
  max_h : Nat

/-- The `(key, abs, len, content_type)` tuple returned by
    `UploadService::upload`. -/
structure UploadOut where
  key : List Char
  abs : List Char
  bytesLen : Nat
  content_type : List Char
deriving DecidableEq

/-- `ImageRsProcessor::is_supported` from `src/image/image_rs_processor.rs`:
    the ASCII-lowercased content type is one of `image/gif`, `image/jpeg`,
    `image/jpg`, `image/png`. -/
def imageRsIsSupported (content_type : List Char) : Bool :=
  let lc := toLowerAscii content_type
  lc = "image/gif".toList ∨ lc = "image/jpeg".toList ∨
    lc = "image/jpg".toList ∨ lc = "image/png".toList

/-- The `(ext, norm_ct)` match at the head of the image branch of
    `UploadService::upload`: the ASCII-lowercased declared type selects the
    extension and the normalised type, with a `("bin", content_type)`
    fallback for any other supported type. -/
def imageExtCt (content_type : List Char) : List Char × List Char :=
  let lc := toLowerAscii content_type
  if lc = "image/jpeg".toList ∨ lc = "image/jpg".toList then
    ("jpg".toList, "image/jpeg".toList)
  else if lc = "image/png".toList then ("png".toList, "image/png".toList)
  else if lc = "image/gif".toList then ("gif".toList, "image/gif".toList)
  else ("bin".toList, content_type)

/-- `UploadService::upload` from `src/web/upload/uploader.rs`.

    `isSupported` is the injected processor's `is_supported`; `resize` its
    `resize_same_format` (already applied to the resize options); `save` the
    storage port.  In the image branch the extension/normalised type come
    from the lowercased declared type with a `("bin", content_type)`
    fallback; in the generic branch the filename is trimmed, `/` replaced by
    `_`, and an empty name becomes `<uuid>.bin`. -/
def upload (isSupported : List Char → Bool)
    (resize : List Nat → List Char → Option (List Nat))
    (save : List Char → List Nat → Option (List Char))
    (dirs : MediaDirs) (uuid yyyymm : List Char)
    (filename content_type : List Char) (bytes : List Nat) :
    Option UploadOut :=
  if isSupported content_type then
    let extct := imageExtCt content_type
    (resize bytes extct.2).bind fun resized =>
      let key := yyyymm ++ '/' :: (uuid ++ '.' :: extct.1)
      (save key resized).map fun abs =>
        { key := key, abs := abs, bytesLen := resized.length,
          content_type := extct.2 }
  else
    let safe := (trimChars filename).map fun c => if c = '/' then '_' else c
    let name := if safe = [] then uuid ++ '.' :: "bin".toList else safe
    let key := dirs.file_dir ++ '/' :: name
    (save key bytes).map fun abs =>
      { key := key, abs := abs, bytesLen := bytes.length,
        content_type := content_type }

/-! ## Concrete instances used by the witnesses -/

/-- A concrete 32-byte-output function standing in for HMAC-SHA256 in
    witnesses. -/
def hmacW : HmacFun := fun _ _ => List.replicate 32 7

/-- A concrete CSRF configuration for witnesses. -/
def cfgW : CsrfConfig :=
  { secret := List.replicate 32 0, cookie_secure := true,
    cookie_http_only := true }

/-- A concrete 32-byte nonce for witnesses. -/
def nonceW : List Nat := List.replicate 32 1

/-- The token minted from the concrete data above. -/
def tokW : List Char := generate_csrf_token hmacW cfgW nonceW

/-- The cookie holding `tokW`. -/
def cookieW : Cookie :=
  { name := csrfCookieName, value := tokW, path := ['/'], sameSite := .lax,
    secure := true, httpOnly := true }

/-- A concrete invertible codec standing in for the `jsonwebtoken` crate in
    the witness of the round-trip theorem: the expiry in unary, a dot, then
    the subject. -/
def jwtEncW : JwtEncode := fun c _ => List.replicate c.exp '1' ++ '.' :: c.sub

/-- Inverse of `jwtEncW`. -/
def jwtDecW : JwtDecode := fun t _ =>
  some { sub := (t.dropWhile fun c => c != '.').drop 1,
         exp := (t.takeWhile fun c => c != '.').length }

theorem b64DecChar_b64EncChar {n : Nat} (h : n < 64) :
    b64DecChar (b64EncChar n) = some n := by
  revert h
  revert n
  decide

theorem b64EncChar_ne_dot (n : Nat) : b64EncChar n ≠ '.' := by
  by_cases h : n < 64
  · revert h
    revert n
    decide
  · unfold b64EncChar
    have h26 : ¬ n < 26 := by omega
    have h52 : ¬ n < 52 := by omega
    have h62 : ¬ n < 62 := by omega
    have hne : ¬ n = 62 := by omega
    simp only [h26, h52, h62, hne, if_false]
    decide

theorem b64encode_mem_ne_dot {l : List Nat} {c : Char}
    (h : c ∈ b64encode l) : c ≠ '.' := by
  induction l using b64encode.induct with
  | case1 => simp [b64encode] at h
  | case2 a =>
    simp only [b64encode, List.mem_cons, List.not_mem_nil, or_false] at h
    rcases h with h | h <;> (subst h; exact b64EncChar_ne_dot _)
  | case3 a b =>
    simp only [b64encode, List.mem_cons, List.not_mem_nil, or_false] at h
    rcases h with h | h | h <;> (subst h; exact b64EncChar_ne_dot _)
  | case4 a b c' rest ih =>
    simp only [b64encode, List.mem_cons] at h
    rcases h with h | h | h | h | h
    · subst h; exact b64EncChar_ne_dot _
    · subst h; exact b64EncChar_ne_dot _
    · subst h; exact b64EncChar_ne_dot _
    · subst h; exact b64EncChar_ne_dot _
    · exact ih h

theorem b64_roundtrip : ∀ l : List Nat, (∀ x ∈ l, x < 256) →
    b64decode (b64encode l) = some l := by
  intro l
  induction l using b64encode.induct with
  | case1 => intro _; rfl
  | case2 a =>
    intro hb
    have ha : a < 256 := hb a (by simp)
    have h1 : a / 4 < 64 := by omega
    have h2 : a % 4 * 16 < 64 := by omega
    simp only [b64encode, b64decode, b64DecChar_b64EncChar h1,
      b64DecChar_b64EncChar h2]
    have : a % 4 * 16 % 16 = 0 := by omega
    simp only [this, if_true]
    congr 2
    omega
  | case3 a b =>
    intro hb
    have ha : a < 256 := hb a (by simp)
    have hb2 : b < 256 := hb b (by simp)
    have h1 : a / 4 < 64 := by omega
    have h2 : a % 4 * 16 + b / 16 < 64 := by omega
    have h3 : b % 16 * 4 < 64 := by omega
    simp only [b64encode, b64decode, b64DecChar_b64EncChar h1,
      b64DecChar_b64EncChar h2, b64DecChar_b64EncChar h3]
    have : b % 16 * 4 % 4 = 0 := by omega
    simp only [this, if_true]
    congr 1
    congr 1
    · omega
    · congr 1
      omega
  | case4 a b c rest ih =>
    intro hb
    have ha : a < 256 := hb a (by simp)
    have hb2 : b < 256 := hb b (by simp)
    have hc : c < 256 := hb c (by simp)
    have h1 : a / 4 < 64 := by omega
    have h2 : a % 4 * 16 + b / 16 < 64 := by omega
    have h3 : b % 16 * 4 + c / 64 < 64 := by omega
    have h4 : c % 64 < 64 := by omega
    have htail : b64decode (b64encode rest) = some rest :=
      ih fun x hx => hb x (by simp [hx])
    simp only [b64encode, b64decode, b64DecChar_b64EncChar h1,
      b64DecChar_b64EncChar h2, b64DecChar_b64EncChar h3,
      b64DecChar_b64EncChar h4, htail]
    congr 1
    congr 1
    · omega
    · congr 1
      · omega
      · congr 1
        omega

/-! ### Lemmas about `splitOnChar` -/

theorem splitOnChar_ne_nil (sep : Char) : ∀ l : List Char, splitOnChar sep l ≠ [] := by
  intro l
  cases l with
  | nil => simp [splitOnChar]
  | cons c rest =>
    simp only [splitOnChar]
    by_cases h : c = sep
    · simp [h]
    · simp only [h, if_false]
      cases splitOnChar sep rest <;> simp

theorem splitOnChar_no_sep {sep : Char} : ∀ {l : List Char}, sep ∉ l →
    splitOnChar sep l = [l] := by
  intro l
  induction l with
  | nil => intro _; rfl
  | cons c rest ih =>
    intro h
    have hc : ¬ c = sep := fun he => h (by simp [he])
    have hrest : sep ∉ rest := fun hm => h (by simp [hm])
    simp only [splitOnChar, hc, if_false, ih hrest]

theorem splitOnChar_append {sep : Char} : ∀ {s1 : List Char} (s2 : List Char),
    sep ∉ s1 → splitOnChar sep (s1 ++ sep :: s2) = s1 :: splitOnChar sep s2 := by
  intro s1
  induction s1 with
  | nil => intro s2 _; simp [splitOnChar]
  | cons c rest ih =>
    intro s2 h
    have hc : ¬ c = sep := fun he => h (by simp [he])
    have hrest : sep ∉ rest := fun hm => h (by simp [hm])
    simp only [List.cons_append, splitOnChar, hc, if_false, List.append_eq,
      ih s2 hrest]

/-- The first field of a split is a prefix of the input: if it is non-empty,
    its head is the head of the input. -/
theorem splitOnChar_head {sep : Char} : ∀ {l h0 : List Char} {t : List (List Char)},
    splitOnChar sep l = h0 :: t → h0 ≠ [] → h0.head? = l.head? := by
  intro l h0 t hsplit hne
  cases l with
  | nil =>
    simp only [splitOnChar] at hsplit
    cases hsplit
    simp at hne
  | cons c rest =>
    simp only [splitOnChar] at hsplit
    by_cases hc : c = sep
    · simp only [hc, if_true] at hsplit
      cases hsplit
      simp at hne
    · simp only [hc, if_false] at hsplit
      rcases hr : splitOnChar sep rest with _ | ⟨h1, t1⟩
      · exact absurd hr (splitOnChar_ne_nil sep rest)
      · rw [hr] at hsplit
        cases hsplit
        rfl

theorem noTwoDotsFrom_of_ne {a : Char} (ha : a ≠ '.') :
    ∀ {l : List Char}, noTwoDots l = true → noTwoDotsFrom a l = true := by
  intro l h
  cases l with
  | nil => rfl
  | cons b rest =>
    simp only [noTwoDotsFrom]
    have : ¬ (a = '.' ∧ b = '.') := fun ⟨h1, _⟩ => ha h1
    simp only [this, if_false]
    exact h

theorem noTwoDots_tail {a : Char} {l : List Char}
    (h : noTwoDotsFrom a l = true) : noTwoDots l = true := by
  cases l with
  | nil => rfl
  | cons b rest =>
    simp only [noTwoDotsFrom] at h
    by_cases hab : a = '.' ∧ b = '.'
    · simp [hab] at h
    · simp only [hab, if_false] at h
      exact h

theorem replaceDotDot_noTwoDots :
    ∀ n (l : List Char), l.length ≤ n →
      noTwoDots (replaceDotDot l) = true ∧ noTwoDots (afterDot l) = true := by
  intro n
  induction n with
  | zero =>
    intro l hl
    have : l = [] := List.length_eq_zero.mp (Nat.le_zero.mp hl)
    subst this
    constructor <;> rfl
  | succ n ih =>
    intro l hl
    cases l with
    | nil => constructor <;> rfl
    | cons a rest =>
      have hrest : rest.length ≤ n := by
        simp only [List.length_cons] at hl; omega
      refine ⟨?_, ?_⟩
      · simp only [replaceDotDot]
        by_cases ha : a = '.'
        · simp only [ha, if_true]
          exact (ih rest hrest).2
        · simp only [ha, if_false]
          show noTwoDotsFrom a (replaceDotDot rest) = true
          exact noTwoDotsFrom_of_ne ha (ih rest hrest).1
      · simp only [afterDot]
        by_cases ha : a = '.'
        · simp only [ha, if_true]
          show noTwoDotsFrom '_' (replaceDotDot rest) = true
          exact noTwoDotsFrom_of_ne (by decide) (ih rest hrest).1
        · simp only [ha, if_false]
          show noTwoDotsFrom '.' (a :: replaceDotDot rest) = true
          simp only [noTwoDotsFrom, ha, true_and, and_false, if_false,
            false_and]
          exact noTwoDotsFrom_of_ne ha (ih rest hrest).1

theorem noTwoDots_replaceDotDot (l : List Char) :
    noTwoDots (replaceDotDot l) = true :=
  (replaceDotDot_noTwoDots l.length l le_rfl).1

/-- Splitting preserves the absence of `".."`: every field of a `".."`-free
    string is `".."`-free. -/
theorem splitOnChar_noTwoDots {sep : Char} :
    ∀ {l : List Char}, noTwoDots l = true →
      ∀ p ∈ splitOnChar sep l, noTwoDots p = true := by
  intro l
  induction l with
  | nil =>
    intro _ p hp
    simp only [splitOnChar, List.mem_singleton] at hp
    subst hp; rfl
  | cons c rest ih =>
    intro h p hp
    have hrestnd : noTwoDots rest = true := noTwoDots_tail h
    simp only [splitOnChar] at hp
    by_cases hc : c = sep
    · simp only [hc, if_true, List.mem_cons] at hp
      rcases hp with hp | hp
      · subst hp; rfl
      · exact ih hrestnd p hp
    · simp only [hc, if_false] at hp
      rcases hr : splitOnChar sep rest with _ | ⟨h0, t⟩
      · exact absurd hr (splitOnChar_ne_nil sep rest)
      · rw [hr] at hp
        simp only [List.mem_cons] at hp
        rcases hp with hp | hp
        · subst hp
          show noTwoDotsFrom c h0 = true
          cases h0 with
          | nil => rfl
          | cons d h0t =>
            have hd : (d :: h0t).head? = rest.head? :=
              splitOnChar_head hr (by simp)
            have hmem : (d :: h0t) ∈ splitOnChar sep rest := by
              rw [hr]; simp
            have hnd : noTwoDots (d :: h0t) = true := ih hrestnd _ hmem
            cases rest with
            | nil => simp at hd
            | cons e rest2 =>
              simp only [List.head?] at hd
              cases hd
              simp only [noTwoDotsFrom]
              by_cases hcd : c = '.' ∧ d = '.'
              · exfalso
                simp only [noTwoDots, noTwoDotsFrom, hcd, if_true] at h
                exact Bool.false_ne_true h
              · simp only [hcd, if_false]
                exact hnd
        · exact ih hrestnd p (by rw [hr]; simp [hp])

/-! ### Structure of a freshly minted token -/

theorem generate_split (hmac : HmacFun) (cfg : CsrfConfig) (nonce : List Nat) :
    splitOnChar '.' (generate_csrf_token hmac cfg nonce) =
      [['v', '1'], b64encode nonce, b64encode (hmac cfg.secret nonce)] := by
  have h1 : generate_csrf_token hmac cfg nonce =
      ['v', '1'] ++ '.' ::
        (b64encode nonce ++ '.' :: b64encode (hmac cfg.secret nonce)) := rfl
  rw [h1, splitOnChar_append _ (by decide),
    splitOnChar_append _ (fun hm => (b64encode_mem_ne_dot hm) rfl),
    splitOnChar_no_sep (fun hm => (b64encode_mem_ne_dot hm) rfl)]

/-- A freshly minted token verifies (assuming the HMAC tag is 32 bytes of
    byte-sized values, which is true of HMAC-SHA256). -/
theorem generate_verifies (hmac : HmacFun) (cfg : CsrfConfig)
    (nonce : List Nat) (hlen : nonce.length = 32)
    (hbyte : ∀ x ∈ nonce, x < 256)
    (hmlen : (hmac cfg.secret nonce).length = 32)
    (hmbyte : ∀ x ∈ hmac cfg.secret nonce, x < 256) :
    verify_token hmac cfg (generate_csrf_token hmac cfg nonce) = true := by
  unfold verify_token
  rw [generate_split]
  simp [b64_roundtrip nonce hbyte, b64_roundtrip _ hmbyte, hlen, hmlen]

theorem tokW_verifies : verify_token hmacW cfgW tokW = true :=
  generate_verifies hmacW cfgW nonceW (by simp [nonceW])
    (by intro x hx; simp [nonceW] at hx; omega)
    (by simp [hmacW])
    (by intro x hx; simp [hmacW] at hx; omega)

theorem tokW_ne_nil : tokW ≠ [] := by
  simp [tokW, generate_csrf_token]

/-! ## The claims -/

/-- C1: for every header map, cookie jar and CSRF configuration, the ingress
    double-submit validator `validate_csrf` returns `true` iff the
    `X-CSRF-Token` header is present and non-empty, the `csrf` cookie is
    present, the header value is byte-equal to the cookie value, and the
    cookie token passes `verify_token` under the configured secret. -/
theorem validate_csrf_iff (hmac : HmacFun) (headers : Headers)
    (jar : CookieJar) (cfg : CsrfConfig) :
    validate_csrf hmac headers jar cfg = true ↔
      ∃ t c, headerGet headers csrfHeaderName = some t ∧ t ≠ [] ∧
        jarGet jar csrfCookieName = some c ∧ t = c.value ∧
        verify_token hmac cfg c.value = true := by
  unfold validate_csrf
  rcases hh : headerGet headers csrfHeaderName with _ | t
  · simp [hh]
  · rcases hj : jarGet jar csrfCookieName with _ | c
    · by_cases ht : t = [] <;> simp [hh, hj, ht]
    · by_cases ht : t = []
      · simp [hh, hj, ht]
      · by_cases he : t = c.value
        · subst he
          simp [hh, hj, ht]
        · simp [hh, hj, ht, he]

/-- Witness for C1 at a concrete valid header/cookie/configuration triple. -/
theorem validate_csrf_iff_witness :
    validate_csrf hmacW [(csrfHeaderName, tokW)] [cookieW] cfgW = true :=
  (validate_csrf_iff hmacW [(csrfHeaderName, tokW)] [cookieW] cfgW).mpr
    ⟨tokW, cookieW, rfl, tokW_ne_nil, rfl, rfl, tokW_verifies⟩

/-- C4: a freshly minted token has exactly three dot-separated segments, the
    first equal to `v1`, the second and third decoding under URL-safe
    no-padding base-64 to exactly 32 bytes each, and `verify_token` accepts
    it under the same configuration (mint-then-verify round-trip).  The
    hypotheses state the actual properties of the random 32-byte nonce and of
    HMAC-SHA256's 32-byte tag. -/
theorem generate_csrf_token_wf (hmac : HmacFun) (cfg : CsrfConfig)
    (nonce : List Nat) (hlen : nonce.length = 32)
    (hbyte : ∀ x ∈ nonce, x < 256)
    (hmlen : (hmac cfg.secret nonce).length = 32)
    (hmbyte : ∀ x ∈ hmac cfg.secret nonce, x < 256) :
    ∃ s2 s3,
      splitOnChar '.' (generate_csrf_token hmac cfg nonce) =
        [['v', '1'], s2, s3] ∧
      (∃ b2, b64decode s2 = some b2 ∧ b2.length = 32) ∧
      (∃ b3, b64decode s3 = some b3 ∧ b3.length = 32) ∧
      verify_token hmac cfg (generate_csrf_token hmac cfg nonce) = true :=
  ⟨b64encode nonce, b64encode (hmac cfg.secret nonce),
    generate_split hmac cfg nonce,
    ⟨nonce, b64_roundtrip nonce hbyte, hlen⟩,
    ⟨hmac cfg.secret nonce, b64_roundtrip _ hmbyte, hmlen⟩,
    generate_verifies hmac cfg nonce hlen hbyte hmlen hmbyte⟩

/-- Witness for C4 at the concrete configuration and nonce. -/
theorem generate_csrf_token_wf_witness :
    ∃ s2 s3,
      splitOnChar '.' (generate_csrf_token hmacW cfgW nonceW) =
        [['v', '1'], s2, s3] ∧
      (∃ b2, b64decode s2 = some b2 ∧ b2.length = 32) ∧
      (∃ b3, b64decode s3 = some b3 ∧ b3.length = 32) ∧
      verify_token hmacW cfgW (generate_csrf_token hmacW cfgW nonceW) = true :=
  generate_csrf_token_wf hmacW cfgW nonceW (by decide)
    (by intro x hx; simp [nonceW] at hx; omega)
    (by decide)
    (by intro x hx; simp [hmacW] at hx; omega)

/-- The cookie `set_csrf_cookie` stores under the name `csrf`. -/
theorem jarGet_set_csrf (jar : CookieJar) (cfg : CsrfConfig)
    (token : List Char) :
    jarGet (set_csrf_cookie jar cfg token) csrfCookieName =
      some { name := csrfCookieName, value := token, path := ['/'],
             sameSite := .lax, secure := cfg.cookie_secure,
             httpOnly := cfg.cookie_http_only } := rfl

/-- C5: the issue/refresh endpoint is idempotent.  When the request's `csrf`
    cookie verifies, the handler reuses exactly that token in the set cookie
    and the JSON body; when the cookie is absent or fails verification, the
    freshly minted token is used and set; consequently calling the handler a
    second time on the jar the first call returns yields the same token. -/
theorem csrf_handler_idempotent (hmac : HmacFun) (cfg : CsrfConfig)
    (jar : CookieJar) (n1 n2 : List Nat)
    (hlen : n1.length = 32) (hbyte : ∀ x ∈ n1, x < 256)
    (hmlen : ∀ k m, (hmac k m).length = 32)
    (hmbyte : ∀ k m x, x ∈ hmac k m → x < 256) :
    (∀ c, jarGet jar csrfCookieName = some c →
      verify_token hmac cfg c.value = true →
      (csrf_handler hmac cfg jar n1).body.csrf_token = c.value ∧
      (jarGet (csrf_handler hmac cfg jar n1).jar csrfCookieName).map
          Cookie.value = some c.value) ∧
    ((∀ c, jarGet jar csrfCookieName = some c →
        verify_token hmac cfg c.value = false) →
      (csrf_handler hmac cfg jar n1).body.csrf_token =
        generate_csrf_token hmac cfg n1 ∧
      (jarGet (csrf_handler hmac cfg jar n1).jar csrfCookieName).map
          Cookie.value = some (generate_csrf_token hmac cfg n1)) ∧
    (csrf_handler hmac cfg (csrf_handler hmac cfg jar n1).jar n2).body.csrf_token
      = (csrf_handler hmac cfg jar n1).body.csrf_token := by
  have hgen : verify_token hmac cfg (generate_csrf_token hmac cfg n1) = true :=
    generate_verifies hmac cfg n1 hlen hbyte (hmlen _ _)
      (fun x hx => hmbyte _ _ x hx)
  refine ⟨?_, ?_, ?_⟩
  · intro c hc hv
    constructor
    · simp [csrf_handler, hc, hv]
    · simp [csrf_handler, hc, hv, jarGet_set_csrf]
  · intro hall
    rcases hjc : jarGet jar csrfCookieName with _ | c
    · constructor
      · simp [csrf_handler, hjc]
      · simp [csrf_handler, hjc, jarGet_set_csrf]
    · have hv := hall c hjc
      constructor
      · simp [csrf_handler, hjc, hv]
      · simp [csrf_handler, hjc, hv, jarGet_set_csrf]
  · rcases hjc : jarGet jar csrfCookieName with _ | c
    · simp [csrf_handler, hjc, jarGet_set_csrf, hgen]
    · cases hv : verify_token hmac cfg c.value
      · simp [csrf_handler, hjc, hv, jarGet_set_csrf, hgen]
      · have hv2 : verify_token hmac cfg c.value = true := hv
        simp [csrf_handler, hjc, hv2, jarGet_set_csrf]

/-- Witness for C5 (the idempotence conjunct at the concrete data). -/
theorem csrf_handler_idempotent_witness :
    (csrf_handler hmacW cfgW (csrf_handler hmacW cfgW [] nonceW).jar
        nonceW).body.csrf_token
      = (csrf_handler hmacW cfgW [] nonceW).body.csrf_token :=
  (csrf_handler_idempotent hmacW cfgW [] nonceW nonceW (by decide)
    (by intro x hx; simp [nonceW] at hx; omega)
    (fun k m => by simp [hmacW])
    (fun k m x hx => by simp [hmacW] at hx; omega)).2.2

/-- C10: whatever the incoming jar holds — no `csrf` cookie, a verifying
    token, or a non-verifying one — the handler's response sets a `csrf`
    cookie whose value equals the `csrfToken` JSON body, and that common
    token verifies under the same configuration. -/
theorem csrf_handler_cookie_body_invariant (hmac : HmacFun)
    (cfg : CsrfConfig) (jar : CookieJar) (nonce : List Nat)
    (hlen : nonce.length = 32) (hbyte : ∀ x ∈ nonce, x < 256)
    (hmlen : ∀ k m, (hmac k m).length = 32)
    (hmbyte : ∀ k m x, x ∈ hmac k m → x < 256) :
    (jarGet (csrf_handler hmac cfg jar nonce).jar csrfCookieName).map
        Cookie.value
      = some (csrf_handler hmac cfg jar nonce).body.csrf_token ∧
    verify_token hmac cfg (csrf_handler hmac cfg jar nonce).body.csrf_token
      = true := by
  have hgen : verify_token hmac cfg (generate_csrf_token hmac cfg nonce) = true :=
    generate_verifies hmac cfg nonce hlen hbyte (hmlen _ _)
      (fun x hx => hmbyte _ _ x hx)
  constructor
  · simp [csrf_handler, jarGet_set_csrf]
  · rcases hjc : jarGet jar csrfCookieName with _ | c
    · simp [csrf_handler, hjc, hgen]
    · cases hv : verify_token hmac cfg c.value
      · simp [csrf_handler, hjc, hv, hgen]
      · have hv2 : verify_token hmac cfg c.value = true := hv
        simp [csrf_handler, hjc, hv2]

/-- Witness for C10 at the concrete configuration with an empty jar. -/
theorem csrf_handler_cookie_body_invariant_witness :
    verify_token hmacW cfgW
        (csrf_handler hmacW cfgW [] nonceW).body.csrf_token = true :=
  (csrf_handler_cookie_body_invariant hmacW cfgW [] nonceW (by decide)
    (by intro x hx; simp [nonceW] at hx; omega)
    (fun k m => by simp [hmacW])
    (fun k m x hx => by simp [hmacW] at hx; omega)).2

/-- C3 counterexample: `save_file` strips **every** leading `/`
    (`trim_start_matches('/')` removes the prefix repeatedly), not a single
    one.  On the input `"//a"` the code's sanitised relative path is `"a"`,
    while the claim's single-slash rule yields `"/a"`, so the persisted
    location differs from the one the claim describes. -/
theorem save_file_single_slash_counterexample :
    sanitizeRelPath ['/', '/', 'a'] = ['a'] ∧
    specSanitizeSingleSlash ['/', '/', 'a'] = ['/', 'a'] ∧
    sanitizeRelPath ['/', '/', 'a'] ≠ specSanitizeSingleSlash ['/', '/', 'a'] ∧
    save_file ['r'] ['/', '/', 'a'] ≠
      ['r'] ++ '/' :: specSanitizeSingleSlash ['/', '/', 'a'] := by
  decide

/-- C3 (amended): `LocalFileStorage::save` persists under the configured
    root at the path obtained from `p` by stripping **all** leading `/`
    characters and replacing every occurrence of the two-character sequence
    `..` with `_`, and no path component of the sanitised relative path
    equals `..`. -/
theorem save_file_sanitizes (root rel_path : List Char) :
    save_file root rel_path =
      root ++ '/' :: specSanitizeAllSlashes rel_path ∧
    ∀ comp ∈ pathComponents (sanitizeRelPath rel_path), comp ≠ ['.', '.'] := by
  constructor
  · rfl
  · intro comp hcomp he
    have h := splitOnChar_noTwoDots
      (noTwoDots_replaceDotDot (trimStartSlashes rel_path)) comp hcomp
    subst he
    exact absurd h (by decide)

/-- Witness for C3's amended theorem at the traversal attempt `"/../a"`:
    sanitisation yields `"_/a"`, whose first component is not `..`. -/
theorem save_file_sanitizes_witness :
    save_file ['r'] ['/', '.', '.', '/', 'a'] =
      ['r'] ++ '/' :: specSanitizeAllSlashes ['/', '.', '.', '/', 'a'] ∧
    (['_'] : List Char) ≠ ['.', '.'] :=
  ⟨(save_file_sanitizes ['r'] ['/', '.', '.', '/', 'a']).1,
   (save_file_sanitizes ['r'] ['/', '.', '.', '/', 'a']).2 ['_'] (by decide)⟩

/-- C9: `Row::get_bool` succeeds on a native boolean cell with its value, on
    an integer cell with `true` exactly when it is nonzero, and on the string
    cells `"0"`/`"1"` with the indicated value; on every other cell content
    and on a missing column it fails with the message
    ``column `<name>` is not Bool``. -/
theorem get_bool_spec (r : Row) (key : List Char) :
    (∀ b, rowGet r key = some (.boolV b) → get_bool r key = .ok b) ∧
    (∀ i, rowGet r key = some (.i64 i) →
      get_bool r key = .ok (decide (i ≠ 0))) ∧
    (∀ u, rowGet r key = some (.u64 u) →
      get_bool r key = .ok (decide (u ≠ 0))) ∧
    (rowGet r key = some (.strV ['0']) → get_bool r key = .ok false) ∧
    (rowGet r key = some (.strV ['1']) → get_bool r key = .ok true) ∧
    (∀ v, rowGet r key = some v → boolCoercible v = false →
      get_bool r key = .error (notBoolMsg key)) ∧
    (rowGet r key = none → get_bool r key = .error (notBoolMsg key)) := by
  refine ⟨?_, ?_, ?_, ?_, ?_, ?_, ?_⟩
  · intro b h; simp [get_bool, h]
  · intro i h; simp [get_bool, h]
  · intro u h; simp [get_bool, h]
  · intro h; simp [get_bool, h]
  · intro h; simp [get_bool, h]
  · intro v h hv
    cases v with
    | boolV b => simp [boolCoercible] at hv
    | i64 i => simp [boolCoercible] at hv
    | u64 u => simp [boolCoercible] at hv
    | strV s =>
      simp only [boolCoercible, decide_eq_false_iff_not] at hv
      simp [get_bool, h, hv]
    | f32 bits => simp [get_bool, h]
    | f64 bits => simp [get_bool, h]
    | dateTime dt => simp [get_bool, h]
    | binV b => simp [get_bool, h]
    | nullV => simp [get_bool, h]
  · intro h; simp [get_bool, h]

/-- Witness for C9 on a concrete row: a `"1"` string cell reads as `true`,
    and a datetime cell fails with the documented message. -/
theorem get_bool_spec_witness :
    get_bool [(['x'], Value.strV ['1'])] ['x'] = .ok true ∧
    get_bool [(['d'], Value.dateTime ⟨1970, 1, 1, 0, 0, 0, 0⟩)] ['d']
      = .error (notBoolMsg ['d']) :=
  ⟨(get_bool_spec [(['x'], Value.strV ['1'])] ['x']).2.2.2.2.1 (by decide),
   (get_bool_spec [(['d'], Value.dateTime ⟨1970, 1, 1, 0, 0, 0, 0⟩)]
      ['d']).2.2.2.2.2.1 (Value.dateTime ⟨1970, 1, 1, 0, 0, 0, 0⟩)
      (by decide) (by decide)⟩

/-- C7: cookie-bound principal extraction is total and silent.  With no
    configured secret both `extract_jwt_subject` and `validate_jwt_guard`
    unconditionally return no principal, and with a secret they return no
    principal whenever the configured cookie is missing, its value does not
    parse as JSON, the JSON carries no string field `token`, or decoding the
    contained JWT with the supplied secret fails. -/
theorem jwt_principal_extraction_silent {T : Type} (parseJson : JsonParse)
    (decodeJwt : JwtDecode) (jar : CookieJar) (headers : Headers)
    (cookie_name : List Char) (parse : List Char → Option T) :
    (extract_jwt_subject parseJson decodeJwt jar headers none cookie_name
        parse = none ∧
      validate_jwt_guard parseJson decodeJwt jar none cookie_name
        parse = none) ∧
    (∀ secret, jarGet jar cookie_name = none →
      extract_jwt_subject parseJson decodeJwt jar headers (some secret)
          cookie_name parse = none ∧
      validate_jwt_guard parseJson decodeJwt jar (some secret) cookie_name
          parse = none) ∧
    (∀ secret c, jarGet jar cookie_name = some c →
      parseJson c.value = none →
      extract_jwt_subject parseJson decodeJwt jar headers (some secret)
          cookie_name parse = none ∧
      validate_jwt_guard parseJson decodeJwt jar (some secret) cookie_name
          parse = none) ∧
    (∀ secret c j, jarGet jar cookie_name = some c →
      parseJson c.value = some j →
      (jsonGet j tokenKey).bind jsonAsStr = none →
      extract_jwt_subject parseJson decodeJwt jar headers (some secret)
          cookie_name parse = none ∧
      validate_jwt_guard parseJson decodeJwt jar (some secret) cookie_name
          parse = none) ∧
    (∀ secret c j t, jarGet jar cookie_name = some c →
      parseJson c.value = some j →
      (jsonGet j tokenKey).bind jsonAsStr = some t →
      decode_jwt decodeJwt t secret = none →
      extract_jwt_subject parseJson decodeJwt jar headers (some secret)
          cookie_name parse = none ∧
      validate_jwt_guard parseJson decodeJwt jar (some secret) cookie_name
          parse = none) := by
  refine ⟨⟨rfl, rfl⟩, ?_, ?_, ?_, ?_⟩
  · intro secret h
    constructor <;> simp [extract_jwt_subject, validate_jwt_guard, h]
  · intro secret c h1 h2
    constructor <;> simp [extract_jwt_subject, validate_jwt_guard, h1, h2]
  · intro secret c j h1 h2 h3
    constructor <;>
      simp [extract_jwt_subject, validate_jwt_guard, h1, h2, h3]
  · intro secret c j t h1 h2 h3 h4
    constructor <;>
      simp [extract_jwt_subject, validate_jwt_guard, h1, h2, h3, h4]

/-- Witness for C7: a cookie whose value fails JSON parsing yields no
    principal through both entry points. -/
theorem jwt_principal_extraction_silent_witness :
    extract_jwt_subject (fun _ => none) (fun _ _ => none) [cookieW] []
        (some []) csrfCookieName (fun s => some s) = none ∧
    validate_jwt_guard (fun _ => none) (fun _ _ => none) [cookieW]
        (some []) csrfCookieName (fun s => some s) = none :=
  (jwt_principal_extraction_silent (fun _ => none) (fun _ _ => none)
    [cookieW] [] csrfCookieName (fun s => some s)).2.2.1 [] cookieW rfl rfl

/-- C6: decoding the token produced by `create_jwt id secret` with the same
    secret succeeds and the decoded subject is the decimal string of `id`.
    The hypothesis is the `jsonwebtoken` contract — decoding a token encoded
    under the same secret with default validation succeeds whenever `exp`
    lies strictly in the future — which `create_jwt` meets because it sets
    `exp = now + 48 hours`. -/
theorem create_jwt_roundtrip (encode : JwtEncode) (decodeJwt : JwtDecode)
    (now : Nat) (id : Nat) (secret : List Nat)
    (hcrate : ∀ c s, now < c.exp → decodeJwt (encode c s) s = some c) :
    (decode_jwt decodeJwt (create_jwt encode now id secret) secret).map
        Claims.sub = some (toString id).toList := by
  unfold decode_jwt create_jwt
  rw [hcrate _ _ (by show now < now + 48 * 3600; omega)]
  rfl

theorem unary_take (n : Nat) (s : List Char) :
    ((List.replicate n '1' ++ '.' :: s).takeWhile fun c => c != '.')
        = List.replicate n '1' ∧
    ((List.replicate n '1' ++ '.' :: s).dropWhile fun c => c != '.')
        = '.' :: s := by
  induction n with
  | zero => simp [List.takeWhile, List.dropWhile]
  | succ n ih =>
    simp [List.replicate_succ, List.takeWhile, List.dropWhile, ih.1, ih.2]

theorem jwtW_roundtrip (c : Claims) (s : List Nat) :
    jwtDecW (jwtEncW c s) s = some c := by
  unfold jwtEncW jwtDecW
  rw [(unary_take c.exp c.sub).1, (unary_take c.exp c.sub).2]
  simp

/-- Witness for C6 at `id = 42` with the concrete codec. -/
theorem create_jwt_roundtrip_witness :
    (decode_jwt jwtDecW (create_jwt jwtEncW 0 42 []) []).map Claims.sub
      = some (toString 42).toList :=
  create_jwt_roundtrip jwtEncW jwtDecW 0 42 []
    (fun c s _ => jwtW_roundtrip c s)

/-- C2 theorem (the claim itself is a code bug; see the float conjuncts):
    for every parameter list free of the float variants, the adapter binds
    positionally, preserving length and order, with each parameter mapped
    exactly by the §4.4 rules (`specParamBinding`, written from the spec);
    for the float variants the source `match` has no arm, so no driver value
    exists — modelled by `none`. -/
theorem to_mysql_params_spec :
    (∀ ps : List Param, (∀ p ∈ ps, isFloatParam p = false) →
      to_mysql_params ps = some (ps.map specParamBinding)) ∧
    to_mysql_value (Param.f32 0) = none ∧
    to_mysql_value (Param.f64 0) = none := by
  refine ⟨?_, rfl, rfl⟩
  intro ps h
  induction ps with
  | nil => rfl
  | cons p rest ih =>
    have hp : isFloatParam p = false := h p (by simp)
    have hrest := ih fun q hq => h q (by simp [hq])
    have hval : to_mysql_value p = some (specParamBinding p) := by
      cases p <;> first
        | rfl
        | simp [isFloatParam] at hp
    simp only [to_mysql_params, List.mapM_cons] at hrest ⊢
    rw [hval, hrest]
    rfl

/-- Witness for C2's theorem on a concrete float-free parameter list
    covering the integer, boolean, string, date-time, binary and null
    variants. -/
theorem to_mysql_params_spec_witness :
    to_mysql_params
        [Param.i64 (-7), Param.u64 9, Param.boolP true, Param.strP ['a'],
         Param.dateTime ⟨2025, 8, 28, 15, 12, 34, 987654321⟩,
         Param.binP [0, 255], Param.nullP]
      = some
        ([Param.i64 (-7), Param.u64 9, Param.boolP true, Param.strP ['a'],
          Param.dateTime ⟨2025, 8, 28, 15, 12, 34, 987654321⟩,
          Param.binP [0, 255], Param.nullP].map specParamBinding) :=
  to_mysql_params_spec.1 _ (by decide)

/-- C8 counterexample: `UploadService::upload` is parametric in the injected
    image processor, and the source's image branch falls back to extension
    `bin` with the MIME passed through.  A processor that reports
    `image/webp` as supported (the repository's own mock processors accept
    every `image/*` type) produces the key `<yyyymm>/<uuid>.bin` — an
    extension outside {jpg, png, gif} — and an unnormalised MIME type,
    contradicting the claim as stated. -/
theorem upload_image_claim_counterexample :
    (fun _ : List Char => true) "image/webp".toList = true ∧
    upload (fun _ => true) (fun b _ => some b) (fun k _ => some k)
        { image_dir := "images".toList, file_dir := "files".toList }
        ['u'] "202501".toList "f.webp".toList "image/webp".toList [0]
      = some { key := "202501/u.bin".toList, abs := "202501/u.bin".toList,
               bytesLen := 1, content_type := "image/webp".toList } ∧
    ¬ ("image/webp".toList = "image/jpeg".toList ∨
       "image/webp".toList = "image/png".toList ∨
       "image/webp".toList = "image/gif".toList) := by
  decide

/-- C8 (amended): when the injected processor is the repository's
    `ImageRsProcessor` — whose supported set is exactly `image/jpeg`,
    `image/jpg`, `image/png`, `image/gif` — every successful upload of a
    supported declared type yields a content key
    `<yyyymm>/<uuid>.<ext>` with `ext ∈ {jpg, png, gif}` and a MIME type
    normalised into {image/jpeg, image/png, image/gif}.  (For other injected
    processors the source falls back to extension `bin` with the declared
    MIME passed through.) -/
theorem upload_image_key_format
    (resize : List Nat → List Char → Option (List Nat))
    (save : List Char → List Nat → Option (List Char))
    (dirs : MediaDirs) (uuid yyyymm filename content_type : List Char)
    (bytes : List Nat) (out : UploadOut)
    (hsup : imageRsIsSupported content_type = true)
    (hout : upload imageRsIsSupported resize save dirs uuid yyyymm filename
        content_type bytes = some out) :
    ∃ ext, (ext = "jpg".toList ∨ ext = "png".toList ∨ ext = "gif".toList) ∧
      out.key = yyyymm ++ '/' :: (uuid ++ '.' :: ext) ∧
      (out.content_type = "image/jpeg".toList ∨
       out.content_type = "image/png".toList ∨
       out.content_type = "image/gif".toList) := by
  have hlc : toLowerAscii content_type = "image/gif".toList ∨
      toLowerAscii content_type = "image/jpeg".toList ∨
      toLowerAscii content_type = "image/jpg".toList ∨
      toLowerAscii content_type = "image/png".toList := by
    simpa [imageRsIsSupported] using hsup
  have hextct : imageExtCt content_type = ("jpg".toList, "image/jpeg".toList)
      ∨ imageExtCt content_type = ("png".toList, "image/png".toList)
      ∨ imageExtCt content_type = ("gif".toList, "image/gif".toList) := by
    rcases hlc with hlc | hlc | hlc | hlc <;>
      simp [imageExtCt, hlc]
  simp only [upload, hsup, if_true] at hout
  rcases hextct with hext | hext | hext
  all_goals
    rw [hext] at hout
  all_goals
    obtain ⟨resized, hr, hout2⟩ := Option.bind_eq_some.mp hout
  all_goals
    obtain ⟨abs, hs, hout3⟩ := Option.map_eq_some'.mp hout2
  all_goals
    subst hout3
  · exact ⟨"jpg".toList, Or.inl rfl, rfl, Or.inl rfl⟩
  · exact ⟨"png".toList, Or.inr (Or.inl rfl), rfl, Or.inr (Or.inl rfl)⟩
  · exact ⟨"gif".toList, Or.inr (Or.inr rfl), rfl, Or.inr (Or.inr rfl)⟩

/-- Witness for C8's amended theorem: a declared `image/PNG` upload through
    identity resize/save capabilities. -/
theorem upload_image_key_format_witness :
    ∃ ext, (ext = "jpg".toList ∨ ext = "png".toList ∨ ext = "gif".toList) ∧
      ("202409/u.png".toList : List Char)
        = "202409".toList ++ '/' :: (['u'] ++ '.' :: ext) ∧
      ("image/png".toList = "image/jpeg".toList ∨
       "image/png".toList = "image/png".toList ∨
       "image/png".toList = "image/gif".toList) := by
  have h := upload_image_key_format (fun b _ => some b) (fun k _ => some k)
    { image_dir := "images".toList, file_dir := "files".toList }
    ['u'] "202409".toList "f.png".toList "image/PNG".toList [0]
    { key := "202409/u.png".toList, abs := "202409/u.png".toList,
      bytesLen := 1, content_type := "image/png".toList }
    (by decide) (by decide)
  exact h

end WzsWeb
